import Mathlib

/-!
Verification of OSSA lifetime completion (OSSALifetimeCompletion.h).

The header contains the full body of `completeOSSALifetime` (ownership
dispatch, memoization through `completedValues`) and of
`visitUnreachableBlock`; those are embedded directly from the source.
The boundary-completion step (`analyzeAndUpdateLifetime`), the
availability-boundary enumeration (`visitAvailabilityBoundary`) and the
unreachable-region fixup (`visitUnreachableInst`, `completeLifetimes`)
are declared in the header but their bodies are not part of the sources
here; they are modelled from the specification over a per-path view of a
value's lifetime: a control-flow path from the value's definition to a
function exit or dead-end terminator is a list of program points, each of
which is a non-consuming use of the value, a lifetime-ending instruction
for the value, some other instruction, or a terminator.
-/

namespace OSSA

/-- One program point of a control-flow path, viewed relative to a fixed
value: a non-consuming use, a lifetime-ending (consuming) instruction, any
other instruction, a guaranteed-dead-end terminator (an unreachable), or a
normal function-exit terminator. -/
inductive PInst : Type
  | useI
  | endI
  | otherI
  | deadEndTerm
  | exitTerm
deriving DecidableEq

/-- A control-flow path from a value's definition (exclusive) to the end of
the function, as the ordered list of program points on it. -/
abbrev CFPath := List PInst

/-- Number of lifetime-ending instructions for the value on a path. -/
def countEnds : CFPath → Nat
  | [] => 0
  | PInst.endI :: rest => countEnds rest + 1
  | _ :: rest => countEnds rest

/-- The last program point of a path (its terminator, for a well-formed
path). -/
def lastInst : CFPath → PInst
  | [] => PInst.otherI
  | [i] => i
  | _ :: rest => lastInst rest

/-- Whether a program point is a block terminator. -/
def isTerm : PInst → Bool
  | PInst.deadEndTerm => true
  | PInst.exitTerm => true
  | _ => false

/-- A well-formed path is nonempty, ends with a terminator, and contains a
terminator only in final position. -/
def wfPath : CFPath → Bool
  | [] => false
  | [i] => isTerm i
  | i :: rest => !(isTerm i) && wfPath rest

/-- Index of the first lifetime-ending instruction on a path (the path's
length when there is none). -/
def endPos : CFPath → Nat
  | [] => 0
  | PInst.endI :: _ => 0
  | _ :: rest => endPos rest + 1

/-- Modelled from the spec: the Liveness boundary rule, "end immediately
after the last non-consuming use on each path"; with no use at all the
ending is inserted immediately after the definition, i.e. at the front. -/
def insertAfterLastUse : CFPath → CFPath
  | [] => [PInst.endI]
  | i :: rest =>
    if PInst.useI ∈ rest then i :: insertAfterLastUse rest
    else if i = PInst.useI then i :: PInst.endI :: rest
    else PInst.endI :: i :: rest

/-- Modelled from the spec: the Availability boundary rule places the ending
as late as possible on the path, immediately before its terminator. -/
def insertBeforeTerm : CFPath → CFPath
  | [] => [PInst.endI]
  | [t] => [PInst.endI, t]
  | i :: rest => i :: insertBeforeTerm rest

/-- The boundary at which to complete the lifetime
(OSSALifetimeCompletion::Boundary). -/
inductive Boundary : Type
  | Liveness
  | Availability
  | AvailabilityWithLeaks
deriving DecidableEq

/-- Modelled from the spec: completion of one control-flow path under a
boundary policy. A path already carrying a lifetime-ending instruction is
left unchanged; otherwise Liveness inserts the ending immediately after the
last non-consuming use, Availability inserts it immediately before the
terminator, and AvailabilityWithLeaks does the same only when the
terminator is an unreachable (a guaranteed dead-end), otherwise it skips
the path, deliberately leaking the value there. -/
def completePath (b : Boundary) (p : CFPath) : CFPath :=
  if countEnds p ≠ 0 then p
  else
    match b with
    | Boundary.Liveness => insertAfterLastUse p
    | Boundary.Availability => insertBeforeTerm p
    | Boundary.AvailabilityWithLeaks =>
        if lastInst p = PInst.deadEndTerm then insertBeforeTerm p else p

/-- Modelled from the spec: the availability-boundary enumeration
(OSSALifetimeCompletion::visitAvailabilityBoundary) restricted to one path.
It returns the path positions the visitor callback is invoked at: none when
the value is already ended on the path, none when leaks are allowed and the
path's terminator is not an unreachable, and otherwise the position
immediately before the terminator. -/
def visitAvailabilityBoundary (allowLeaks : Bool) (p : CFPath) : List Nat :=
  if countEnds p ≠ 0 then []
  else if allowLeaks = true ∧ lastInst p ≠ PInst.deadEndTerm then []
  else [p.length - 1]

/-- Ownership kind of a SIL value (OwnershipKind). -/
inductive OwnershipKind : Type
  | None
  | Owned
  | Guaranteed
  | Unowned
deriving DecidableEq

/-- Result of lifetime completion (enum class LifetimeCompletion). -/
inductive LifetimeCompletion : Type
  | NoLifetime
  | AlreadyComplete
  | WasCompleted
deriving DecidableEq

/-- A SIL value as lifetime completion observes it: its ownership kind,
whether it introduces a borrow scope, whether that scope is local, whether
the value is lexical, and the control-flow paths from its definition to the
ends of the function. -/
structure ValueModel : Type where
  ownershipKind : OwnershipKind
  introducesBorrowScope : Bool
  isLocalScope : Bool
  isLexical : Bool
  paths : List CFPath
deriving DecidableEq

/-- BorrowedValue(value) conversion: succeeds exactly for guaranteed values
that introduce a borrow scope. -/
def isBorrowedValue (v : ValueModel) : Bool :=
  decide (v.ownershipKind = OwnershipKind.Guaranteed) && v.introducesBorrowScope

/-- The engine's per-instance state: the `completedValues` ValueSet caching
values already handled. -/
structure EngineState : Type where
  completedValues : List ValueModel
deriving DecidableEq

/-- Result of one `completeOSSALifetime` call: the returned enum value, the
value with its (possibly updated) paths, and the engine state after the
call. -/
structure CompletionResult : Type where
  outcome : LifetimeCompletion
  value : ValueModel
  state : EngineState
deriving DecidableEq

/-- Modelled from the spec: `analyzeAndUpdateLifetime` is declared in the
header but its body is not among the sources; per the spec it runs the
boundary-completion algorithm for the value and returns whether any new
lifetime-ending instruction was created. It is modelled as completing every
control-flow path of the value under the chosen boundary. The spec's
recursion into nested borrow scopes is not modelled; the properties below
concern a single value's own boundary. -/
def analyzeAndUpdateLifetime (v : ValueModel) (b : Boundary) : Bool × ValueModel :=
  let newPaths := v.paths.map (completePath b)
  (decide (newPaths ≠ v.paths), { v with paths := newPaths })

/-- The tail of `completeOSSALifetime` after the ownership dispatch
(source lines 110..115): the memoization check against `completedValues`
followed by `analyzeAndUpdateLifetime`. -/
def completeOSSALifetimeRest (v : ValueModel) (b : Boundary) (s : EngineState) :
    CompletionResult :=
  if v ∈ s.completedValues then
    { outcome := LifetimeCompletion.AlreadyComplete, value := v, state := s }
  else
    let r := analyzeAndUpdateLifetime v b
    { outcome := if r.1 then LifetimeCompletion.WasCompleted
                 else LifetimeCompletion.AlreadyComplete,
      value := r.2,
      state := { completedValues := v :: s.completedValues } }

/-- OSSALifetimeCompletion::completeOSSALifetime, embedded from the header:
values of ownership kind None have no lifetime; non-owned values that are
not borrowed values have no lifetime; borrowed values that are not locally
scoped are already complete; otherwise the value is memoized and the
boundary-completion algorithm runs. -/
def completeOSSALifetime (v : ValueModel) (b : Boundary) (s : EngineState) :
    CompletionResult :=
  if v.ownershipKind = OwnershipKind.None then
    { outcome := LifetimeCompletion.NoLifetime, value := v, state := s }
  else
    if v.ownershipKind ≠ OwnershipKind.Owned then
      if isBorrowedValue v = false then
        { outcome := LifetimeCompletion.NoLifetime, value := v, state := s }
      else if v.isLocalScope = false then
        { outcome := LifetimeCompletion.AlreadyComplete, value := v, state := s }
      else completeOSSALifetimeRest v b s
    else completeOSSALifetimeRest v b s

/-- Modelled from the spec: the default boundary selection documented on
`completeOSSALifetime` (no overload without a boundary argument is among
the sources): a lexical value uses Availability, a non-lexical value uses
Liveness. -/
def defaultBoundary (v : ValueModel) : Boundary :=
  if v.isLexical then Boundary.Availability else Boundary.Liveness

/-- `completeOSSALifetime` as invoked by a caller that does not specify a
boundary policy: the boundary is selected from the value itself. -/
def completeOSSALifetimeDefault (v : ValueModel) (s : EngineState) :
    CompletionResult :=
  completeOSSALifetime v (defaultBoundary v) s

/-- State of an UnreachableLifetimeCompletion object: the recorded
unreachable blocks and instructions, the values found incomplete, and the
`updatingLifetimes` flag (false on construction). Blocks and instructions
are identified by numbers. -/
structure ULCState : Type where
  unreachableBlocks : List Nat
  unreachableInsts : List Nat
  incompleteValues : List Nat
  updatingLifetimes : Bool
deriving DecidableEq

/-- A freshly constructed UnreachableLifetimeCompletion: all record sets
empty, `updatingLifetimes` false. -/
def initialULCState : ULCState :=
  { unreachableBlocks := [], unreachableInsts := [], incompleteValues := [],
    updatingLifetimes := false }

/-- SetVector-style insertion: append if not already present. -/
def insertSet (x : Nat) (l : List Nat) : List Nat :=
  if x ∈ l then l else l ++ [x]

/-- UnreachableLifetimeCompletion::visitUnreachableBlock, embedded from the
header: it unconditionally inserts the block into `unreachableBlocks`,
performing no check of `updatingLifetimes`. -/
def visitUnreachableBlock (s : ULCState) (b : Nat) : ULCState :=
  { s with unreachableBlocks := insertSet b s.unreachableBlocks }

/-- Modelled from the spec: `visitUnreachableInst` is declared in the header
but its body is not among the sources; per the spec it detects whether the
visited instruction is a lifetime-ending instruction for some value and, if
so, records that value as incomplete. Restricted to the one value `vid` the
path is viewed relative to: an `endI` point records `vid`. -/
def visitUnreachableInst (vid : Nat) (s : ULCState) (i : PInst) : ULCState :=
  if i = PInst.endI then
    { s with incompleteValues := insertSet vid s.incompleteValues }
  else s

/-- Recording an unreachable region: `visitUnreachableInst` applied to each
of the region's instructions in forward program order. -/
def recordRegion (vid : Nat) (region : CFPath) (s : ULCState) : ULCState :=
  region.foldl (visitUnreachableInst vid) s

/-- Modelled from the spec: `completeLifetimes` is declared in the header
but its body is not among the sources; per the spec it completes, for each
recorded value defined outside the unreachable region, the lifetime
immediately outside the region's entry, returns whether any new ending
instruction was inserted, and leaves the `updatingLifetimes` flag set.
Restricted to one value `vid` and the control-flow path that enters the
region: `outside` is the part of the path before the region entry, and the
surviving path after the region is deleted is returned together with the
boolean result and the updated state. -/
def completeLifetimes (vid : Nat) (definedOutsideRegion : Bool)
    (outside : CFPath) (s : ULCState) : CFPath × Bool × ULCState :=
  let s' := { s with updatingLifetimes := true }
  if definedOutsideRegion = true ∧ vid ∈ s.incompleteValues then
    (outside ++ [PInst.endI], true, s')
  else (outside, false, s')

/-- A value with one path that falls through to a normal function exit with
no use and no ending instruction: the input of the leak example. -/
def leakValue : ValueModel :=
  { ownershipKind := OwnershipKind.Owned, introducesBorrowScope := false,
    isLocalScope := false, isLexical := false,
    paths := [[PInst.otherI, PInst.exitTerm]] }

/-- An UnreachableLifetimeCompletion state after `completeLifetimes` has
run: `updatingLifetimes` is set. -/
def usedULCState : ULCState :=
  { unreachableBlocks := [], unreachableInsts := [], incompleteValues := [],
    updatingLifetimes := true }

/-- A lexical owned value with no paths, used as a concrete input for the
default-boundary selection. -/
def lexicalValue : ValueModel :=
  { ownershipKind := OwnershipKind.Owned, introducesBorrowScope := false,
    isLocalScope := false, isLexical := true, paths := [] }

/-- The invariant of the `completedValues` cache: it only ever holds values
that are Owned or locally scoped borrow introducers. -/
def completedValuesInvariant (s : EngineState) : Prop :=
  ∀ w ∈ s.completedValues,
    w.ownershipKind = OwnershipKind.Owned ∨
      (isBorrowedValue w = true ∧ w.isLocalScope = true)

/-! ## Helper lemmas -/

theorem countEnds_cons (i : PInst) (rest : CFPath) :
    countEnds (i :: rest) = (if i = PInst.endI then 1 else 0) + countEnds rest := by
  cases i <;> simp [countEnds, Nat.add_comm]

theorem countEnds_append (p q : CFPath) :
    countEnds (p ++ q) = countEnds p + countEnds q := by
  induction p with
  | nil => simp [countEnds]
  | cons i rest ih =>
    rw [List.cons_append, countEnds_cons, countEnds_cons, ih]
    omega

theorem countEnds_insertAfterLastUse (p : CFPath) :
    countEnds (insertAfterLastUse p) = countEnds p + 1 := by
  induction p with
  | nil => rfl
  | cons i rest ih =>
    by_cases hmem : PInst.useI ∈ rest
    · rw [insertAfterLastUse, if_pos hmem, countEnds_cons, countEnds_cons, ih]
      omega
    · by_cases hi : i = PInst.useI
      · subst hi
        rw [insertAfterLastUse, if_neg hmem, if_pos rfl]
        simp [countEnds]
      · rw [insertAfterLastUse, if_neg hmem, if_neg hi]
        rw [countEnds, countEnds_cons]

theorem countEnds_insertBeforeTerm (p : CFPath) :
    countEnds (insertBeforeTerm p) = countEnds p + 1 := by
  induction p with
  | nil => rfl
  | cons i rest ih =>
    cases rest with
    | nil =>
      show countEnds [PInst.endI, i] = countEnds [i] + 1
      rw [countEnds, countEnds_cons]
    | cons j rest2 =>
      show countEnds (i :: insertBeforeTerm (j :: rest2)) = countEnds (i :: j :: rest2) + 1
      rw [countEnds_cons, countEnds_cons, ih]
      omega

theorem length_insertBeforeTerm (p : CFPath) :
    (insertBeforeTerm p).length = p.length + 1 := by
  induction p with
  | nil => rfl
  | cons i rest ih =>
    cases rest with
    | nil => rfl
    | cons j rest2 =>
      show (i :: insertBeforeTerm (j :: rest2)).length = (i :: j :: rest2).length + 1
      simp [ih]

theorem countEnds_completePath (b : Boundary) (p : CFPath)
    (hb : b = Boundary.Liveness ∨ b = Boundary.Availability)
    (hlin : countEnds p ≤ 1) :
    countEnds (completePath b p) = 1 := by
  by_cases h0 : countEnds p = 0
  · rcases hb with hb | hb <;> subst hb <;>
      simp [completePath, h0, countEnds_insertAfterLastUse, countEnds_insertBeforeTerm]
  · have h1 : countEnds p = 1 := by omega
    rcases hb with hb | hb <;> subst hb <;> simp [completePath, h0, h1]

theorem isBorrowedValue_guaranteed (v : ValueModel)
    (h : isBorrowedValue v = true) :
    v.ownershipKind = OwnershipKind.Guaranteed := by
  unfold isBorrowedValue at h
  simp only [Bool.and_eq_true, decide_eq_true_eq] at h
  exact h.1

theorem completeOSSALifetime_rest_of_owned (v : ValueModel) (b : Boundary)
    (s : EngineState) (h : v.ownershipKind = OwnershipKind.Owned) :
    completeOSSALifetime v b s = completeOSSALifetimeRest v b s := by
  simp [completeOSSALifetime, h]

theorem completeOSSALifetime_rest_of_localBorrow (v : ValueModel) (b : Boundary)
    (s : EngineState) (h3 : isBorrowedValue v = true) (h4 : v.isLocalScope = true) :
    completeOSSALifetime v b s = completeOSSALifetimeRest v b s := by
  have hg := isBorrowedValue_guaranteed v h3
  have h1 : v.ownershipKind ≠ OwnershipKind.None := by rw [hg]; intro hc; cases hc
  have h2 : v.ownershipKind ≠ OwnershipKind.Owned := by rw [hg]; intro hc; cases hc
  simp [completeOSSALifetime, h1, h2, h3, h4]

/-- A call whose value passes the ownership dispatch and is already cached
returns AlreadyComplete and changes nothing. -/
theorem completeOSSALifetime_memoized (v : ValueModel) (b : Boundary)
    (s : EngineState)
    (hk : v.ownershipKind = OwnershipKind.Owned ∨
      (isBorrowedValue v = true ∧ v.isLocalScope = true))
    (hm : v ∈ s.completedValues) :
    completeOSSALifetime v b s =
      { outcome := LifetimeCompletion.AlreadyComplete, value := v, state := s } := by
  rcases hk with h2 | ⟨h3, h4⟩
  · rw [completeOSSALifetime_rest_of_owned v b s h2, completeOSSALifetimeRest, if_pos hm]
  · rw [completeOSSALifetime_rest_of_localBorrow v b s h3 h4, completeOSSALifetimeRest,
      if_pos hm]

/-- Case analysis of one call: either the state is unchanged and the
outcome is not WasCompleted, or the value was freshly cached, which happens
only for uncached values that pass the ownership dispatch. -/
theorem completeOSSALifetime_state_cases (v : ValueModel) (b : Boundary)
    (s : EngineState) :
    ((completeOSSALifetime v b s).state = s ∧
      (completeOSSALifetime v b s).outcome ≠ LifetimeCompletion.WasCompleted) ∨
    ((completeOSSALifetime v b s).state = { completedValues := v :: s.completedValues } ∧
      v ∉ s.completedValues ∧
      (v.ownershipKind = OwnershipKind.Owned ∨
        (isBorrowedValue v = true ∧ v.isLocalScope = true))) := by
  by_cases h1 : v.ownershipKind = OwnershipKind.None
  · left; constructor <;> simp [completeOSSALifetime, h1]
  by_cases h2 : v.ownershipKind = OwnershipKind.Owned
  · rw [completeOSSALifetime_rest_of_owned v b s h2, completeOSSALifetimeRest]
    by_cases hm : v ∈ s.completedValues
    · left; rw [if_pos hm]; exact ⟨rfl, by simp⟩
    · right; exact ⟨by rw [if_neg hm], hm, Or.inl h2⟩
  by_cases h3 : isBorrowedValue v = true
  · by_cases h4 : v.isLocalScope = true
    · rw [completeOSSALifetime_rest_of_localBorrow v b s h3 h4, completeOSSALifetimeRest]
      by_cases hm : v ∈ s.completedValues
      · left; rw [if_pos hm]; exact ⟨rfl, by simp⟩
      · right; exact ⟨by rw [if_neg hm], hm, Or.inr ⟨h3, h4⟩⟩
    · left
      have h4' : v.isLocalScope = false := by
        cases hq : v.isLocalScope
        · rfl
        · exact absurd hq h4
      constructor <;> simp [completeOSSALifetime, h1, h2, h3, h4']
  · left
    have h3' : isBorrowedValue v = false := by
      cases hq : isBorrowedValue v
      · rfl
      · exact absurd hq h3
    constructor <;> simp [completeOSSALifetime, h1, h2, h3']

/-- The `completedValues` cache only ever grows. -/
theorem completeOSSALifetime_monotone (w : ValueModel) (c : Boundary)
    (t : EngineState) :
    t.completedValues ⊆ (completeOSSALifetime w c t).state.completedValues := by
  rcases completeOSSALifetime_state_cases w c t with ⟨hc, _⟩ | ⟨hc, _, _⟩
  · rw [hc]; exact fun x hx => hx
  · rw [hc]
    intro x hx
    exact List.mem_cons_of_mem _ hx

/-- A result of WasCompleted implies the value passed the ownership dispatch,
was not yet cached, and is cached afterwards. -/
theorem completeOSSALifetime_wasCompleted_facts (v : ValueModel) (b : Boundary)
    (s : EngineState)
    (h : (completeOSSALifetime v b s).outcome = LifetimeCompletion.WasCompleted) :
    (v.ownershipKind = OwnershipKind.Owned ∨
      (isBorrowedValue v = true ∧ v.isLocalScope = true)) ∧
    v ∉ s.completedValues ∧
    (completeOSSALifetime v b s).state.completedValues = v :: s.completedValues := by
  rcases completeOSSALifetime_state_cases v b s with ⟨_, hout⟩ | ⟨hc, hm, hk⟩
  · exact absurd h hout
  · exact ⟨hk, hm, by rw [hc]⟩

/-! ## Claim theorems -/

/-- Claim C2: `completeOSSALifetime` dispatches on ownership kind exactly as
specified: ownership kind None returns NoLifetime; a non-Owned value that is
not a borrow introducer returns NoLifetime; a borrow introducer that is not
locally scoped returns AlreadyComplete; in all these cases the value's paths
are unchanged (no instruction inserted) and the engine state is unchanged. -/
theorem completeOSSALifetime_dispatch (v : ValueModel) (b : Boundary)
    (s : EngineState) :
    (v.ownershipKind = OwnershipKind.None →
      completeOSSALifetime v b s =
        { outcome := LifetimeCompletion.NoLifetime, value := v, state := s }) ∧
    (v.ownershipKind ≠ OwnershipKind.Owned → isBorrowedValue v = false →
      completeOSSALifetime v b s =
        { outcome := LifetimeCompletion.NoLifetime, value := v, state := s }) ∧
    (isBorrowedValue v = true → v.isLocalScope = false →
      completeOSSALifetime v b s =
        { outcome := LifetimeCompletion.AlreadyComplete, value := v, state := s }) := by
  refine ⟨?_, ?_, ?_⟩
  · intro h
    simp [completeOSSALifetime, h]
  · intro hk hbv
    have hn : v.ownershipKind ≠ OwnershipKind.None ∨ v.ownershipKind = OwnershipKind.None :=
      Or.symm (em _)
    by_cases h : v.ownershipKind = OwnershipKind.None
    · simp [completeOSSALifetime, h]
    · simp [completeOSSALifetime, h, hk, hbv]
  · intro hbv hls
    have hg := isBorrowedValue_guaranteed v hbv
    have hn : v.ownershipKind ≠ OwnershipKind.None := by rw [hg]; intro h; cases h
    have ho : v.ownershipKind ≠ OwnershipKind.Owned := by rw [hg]; intro h; cases h
    simp [completeOSSALifetime, hn, ho, hbv, hls]

/-- Witness for C2 at a concrete None-kind value. -/
theorem completeOSSALifetime_dispatch_witness :
    completeOSSALifetime
      { ownershipKind := OwnershipKind.None, introducesBorrowScope := false,
        isLocalScope := false, isLexical := false, paths := [] }
      Boundary.Liveness { completedValues := [] } =
      { outcome := LifetimeCompletion.NoLifetime,
        value := { ownershipKind := OwnershipKind.None, introducesBorrowScope := false,
                   isLocalScope := false, isLexical := false, paths := [] },
        state := { completedValues := [] } } :=
  (completeOSSALifetime_dispatch _ _ _).1 rfl

/-- Claim C9: for every value of ownership kind Owned, `completeOSSALifetime`
never returns NoLifetime: the outcome is AlreadyComplete or WasCompleted,
regardless of boundary policy and engine state. -/
theorem completeOSSALifetime_owned_never_noLifetime (v : ValueModel)
    (b : Boundary) (s : EngineState) (h : v.ownershipKind = OwnershipKind.Owned) :
    (completeOSSALifetime v b s).outcome = LifetimeCompletion.AlreadyComplete ∨
    (completeOSSALifetime v b s).outcome = LifetimeCompletion.WasCompleted := by
  have hrest : completeOSSALifetime v b s = completeOSSALifetimeRest v b s := by
    simp [completeOSSALifetime, h]
  rw [hrest, completeOSSALifetimeRest]
  by_cases hm : v ∈ s.completedValues
  · rw [if_pos hm]; left; rfl
  · rw [if_neg hm]
    by_cases hr : (analyzeAndUpdateLifetime v b).1 = true
    · right; simp [hr]
    · left; simp [hr]

/-- Claim C3: `completeOSSALifetime` is idempotent per engine instance. If a
call on value `v` returns WasCompleted, then `v` is cached in
`completedValues` afterwards; any later call on `v` against a state still
containing `v` returns AlreadyComplete with the value's paths and the state
untouched (no new instruction inserted); and the cache only ever grows
across calls on arbitrary values, so `v` stays cached for the rest of the
engine instance's life and at most one call on `v` returns WasCompleted. -/
theorem completeOSSALifetime_idempotent (v : ValueModel) (b b' : Boundary)
    (s : EngineState)
    (h : (completeOSSALifetime v b s).outcome = LifetimeCompletion.WasCompleted) :
    v ∈ (completeOSSALifetime v b s).state.completedValues ∧
    (∀ s' : EngineState, v ∈ s'.completedValues →
      completeOSSALifetime v b' s' =
        { outcome := LifetimeCompletion.AlreadyComplete, value := v, state := s' }) ∧
    (∀ (w : ValueModel) (c : Boundary) (t : EngineState),
      t.completedValues ⊆ (completeOSSALifetime w c t).state.completedValues) := by
  obtain ⟨hk, _, heq⟩ := completeOSSALifetime_wasCompleted_facts v b s h
  refine ⟨?_, ?_, ?_⟩
  · rw [heq]
    exact List.mem_cons_self v s.completedValues
  · intro s' hm'
    exact completeOSSALifetime_memoized v b' s' hk hm'
  · exact completeOSSALifetime_monotone

/-- Witness for C3: a first call completes an owned value, after which the
value is cached. -/
theorem completeOSSALifetime_idempotent_witness :
    leakValue ∈ (completeOSSALifetime leakValue Boundary.Liveness
      { completedValues := [] }).state.completedValues :=
  (completeOSSALifetime_idempotent leakValue Boundary.Liveness Boundary.Availability
    { completedValues := [] } (by decide)).1

/-- Claim C10: invariant of every engine instance: `completeOSSALifetime`
only ever inserts values that are Owned or locally scoped borrow
introducers into `completedValues`; values of kind None,
non-borrow-introducers and non-locally-scoped borrow introducers never
enter the cache. -/
theorem completeOSSALifetime_cache_invariant (v : ValueModel) (b : Boundary)
    (s : EngineState) (h : completedValuesInvariant s) :
    completedValuesInvariant (completeOSSALifetime v b s).state := by
  rcases completeOSSALifetime_state_cases v b s with ⟨hc, _⟩ | ⟨hc, _, hk⟩
  · rw [hc]; exact h
  · rw [hc]
    intro w hw
    rcases List.mem_cons.mp hw with hv | hw'
    · rw [hv]; exact hk
    · exact h w hw'

/-- Witness for C10: the invariant holds of the fresh engine state and is
preserved by a concrete call. -/
theorem completeOSSALifetime_cache_invariant_witness :
    completedValuesInvariant
      (completeOSSALifetime leakValue Boundary.Liveness
        { completedValues := [] }).state :=
  completeOSSALifetime_cache_invariant leakValue Boundary.Liveness
    { completedValues := [] }
    (fun w hw => absurd hw (List.not_mem_nil w))

/-- Witness for C9 at a concrete Owned value. -/
theorem completeOSSALifetime_owned_never_noLifetime_witness :
    (completeOSSALifetime leakValue Boundary.Liveness
        { completedValues := [] }).outcome = LifetimeCompletion.AlreadyComplete ∨
    (completeOSSALifetime leakValue Boundary.Liveness
        { completedValues := [] }).outcome = LifetimeCompletion.WasCompleted :=
  completeOSSALifetime_owned_never_noLifetime leakValue Boundary.Liveness
    { completedValues := [] } rfl

/-- Claim C1 (amended): for a value that passes the ownership dispatch (it
is Owned or a locally scoped borrow introducer), is not yet cached, and
whose paths each carry at most one lifetime-ending instruction, a call of
`completeOSSALifetime` under the Liveness or Availability boundary returns
WasCompleted or AlreadyComplete and afterwards every control-flow path from
the value's definition to the end of the function carries exactly one
lifetime-ending instruction. Under AvailabilityWithLeaks this fails: see
the counterexample. -/
theorem completeOSSALifetime_completeness (v : ValueModel) (b : Boundary)
    (s : EngineState)
    (hb : b = Boundary.Liveness ∨ b = Boundary.Availability)
    (hlin : ∀ p ∈ v.paths, countEnds p ≤ 1)
    (hk : v.ownershipKind = OwnershipKind.Owned ∨
      (isBorrowedValue v = true ∧ v.isLocalScope = true))
    (hfresh : v ∉ s.completedValues) :
    ((completeOSSALifetime v b s).outcome = LifetimeCompletion.WasCompleted ∨
      (completeOSSALifetime v b s).outcome = LifetimeCompletion.AlreadyComplete) ∧
    ∀ p ∈ (completeOSSALifetime v b s).value.paths, countEnds p = 1 := by
  have hrest : completeOSSALifetime v b s = completeOSSALifetimeRest v b s := by
    rcases hk with h2 | ⟨h3, h4⟩
    · exact completeOSSALifetime_rest_of_owned v b s h2
    · exact completeOSSALifetime_rest_of_localBorrow v b s h3 h4
  rw [hrest, completeOSSALifetimeRest, if_neg hfresh]
  constructor
  · by_cases hr : (analyzeAndUpdateLifetime v b).1 = true
    · left; simp [hr]
    · right; simp [hr]
  · intro p hp
    have hmem : p ∈ v.paths.map (completePath b) := by
      simpa [analyzeAndUpdateLifetime] using hp
    obtain ⟨q, hq, hqe⟩ := List.mem_map.mp hmem
    rw [← hqe]
    exact countEnds_completePath b q hb (hlin q hq)

/-- Witness for C1 (amended) at a concrete owned value under Availability. -/
theorem completeOSSALifetime_completeness_witness :
    ((completeOSSALifetime leakValue Boundary.Availability
        { completedValues := [] }).outcome = LifetimeCompletion.WasCompleted ∨
      (completeOSSALifetime leakValue Boundary.Availability
        { completedValues := [] }).outcome = LifetimeCompletion.AlreadyComplete) ∧
    ∀ p ∈ (completeOSSALifetime leakValue Boundary.Availability
        { completedValues := [] }).value.paths, countEnds p = 1 :=
  completeOSSALifetime_completeness leakValue Boundary.Availability
    { completedValues := [] } (Or.inr rfl) (by decide) (Or.inl rfl) (by decide)

/-- Counterexample to claim C1 as stated: for an owned value whose only
path falls through to a normal function exit with no use and no ending
instruction, `completeOSSALifetime` under AvailabilityWithLeaks returns
AlreadyComplete, yet the path still carries zero lifetime-ending
instructions, not exactly one: the value is deliberately leaked there. -/
theorem completeOSSALifetime_leak_counterexample :
    (completeOSSALifetime leakValue Boundary.AvailabilityWithLeaks
        { completedValues := [] }).outcome = LifetimeCompletion.AlreadyComplete ∧
    (completeOSSALifetime leakValue Boundary.AvailabilityWithLeaks
        { completedValues := [] }).value.paths = [[PInst.otherI, PInst.exitTerm]] ∧
    countEnds [PInst.otherI, PInst.exitTerm] = 0 := by decide

/-- Claim C4: under AvailabilityWithLeaks, a path whose terminator is not a
guaranteed dead-end has no availability-boundary position visited and no
lifetime-ending instruction inserted; under Availability (DoNotAllowLeaks),
insertion into such a path happens whenever required (the value is not
already ended there). -/
theorem availabilityWithLeaks_skips_nonDeadEnd (p : CFPath)
    (h : lastInst p ≠ PInst.deadEndTerm) :
    visitAvailabilityBoundary true p = [] ∧
    completePath Boundary.AvailabilityWithLeaks p = p ∧
    (countEnds p = 0 → completePath Boundary.Availability p ≠ p) := by
  refine ⟨?_, ?_, ?_⟩
  · by_cases h0 : countEnds p = 0
    · simp [visitAvailabilityBoundary, h0, h]
    · simp [visitAvailabilityBoundary, h0]
  · by_cases h0 : countEnds p = 0
    · simp [completePath, h0, h]
    · simp [completePath, h0]
  · intro h0
    have hcp : completePath Boundary.Availability p = insertBeforeTerm p := by
      simp [completePath, h0]
    rw [hcp]
    intro hc
    have hl := congrArg List.length hc
    rw [length_insertBeforeTerm] at hl
    omega

/-- Witness for C4 at a concrete path ending in a normal function exit. -/
theorem availabilityWithLeaks_skips_nonDeadEnd_witness :
    visitAvailabilityBoundary true [PInst.otherI, PInst.exitTerm] = [] ∧
    completePath Boundary.AvailabilityWithLeaks [PInst.otherI, PInst.exitTerm] =
      [PInst.otherI, PInst.exitTerm] :=
  ⟨(availabilityWithLeaks_skips_nonDeadEnd [PInst.otherI, PInst.exitTerm] (by decide)).1,
   (availabilityWithLeaks_skips_nonDeadEnd [PInst.otherI, PInst.exitTerm] (by decide)).2.1⟩

theorem endPos_cons_ne (i : PInst) (rest : CFPath) (h : i ≠ PInst.endI) :
    endPos (i :: rest) = endPos rest + 1 := by
  cases i
  · rfl
  · exact absurd rfl h
  · rfl
  · rfl
  · rfl

theorem endPos_insertBeforeTerm (p : CFPath) (h0 : countEnds p = 0) :
    endPos (insertBeforeTerm p) = p.length - 1 := by
  induction p with
  | nil => rfl
  | cons i rest ih =>
    cases rest with
    | nil => rfl
    | cons j rest2 =>
      have hi : i ≠ PInst.endI := by
        intro hc
        rw [countEnds_cons, if_pos hc] at h0
        omega
      have h0' : countEnds (j :: rest2) = 0 := by
        rw [countEnds_cons] at h0
        omega
      show endPos (i :: insertBeforeTerm (j :: rest2)) = (i :: j :: rest2).length - 1
      rw [endPos_cons_ne i _ hi, ih h0']
      simp only [List.length_cons]
      omega

theorem endPos_insertAfterLastUse_le (p : CFPath) (hwf : wfPath p = true)
    (h0 : countEnds p = 0) :
    endPos (insertAfterLastUse p) ≤ p.length - 1 := by
  induction p with
  | nil => exact absurd hwf (by simp [wfPath])
  | cons i rest ih =>
    have hie : i ≠ PInst.endI := by
      intro hc
      rw [countEnds_cons, if_pos hc] at h0
      omega
    cases rest with
    | nil =>
      have hterm : isTerm i = true := hwf
      have hiu : i ≠ PInst.useI := by
        intro hc
        rw [hc] at hterm
        exact Bool.noConfusion hterm
      rw [insertAfterLastUse, if_neg (by simp), if_neg hiu]
      show endPos [PInst.endI, i] ≤ 0
      exact Nat.le_refl 0
    | cons j rest2 =>
      have hwf2 : (!(isTerm i) && wfPath (j :: rest2)) = true := hwf
      have hwf' : wfPath (j :: rest2) = true := by
        simp only [Bool.and_eq_true] at hwf2
        exact hwf2.2
      have h0' : countEnds (j :: rest2) = 0 := by
        rw [countEnds_cons] at h0
        omega
      by_cases hmem : PInst.useI ∈ (j :: rest2)
      · rw [insertAfterLastUse, if_pos hmem, endPos_cons_ne i _ hie]
        have hle := ih hwf' h0'
        simp only [List.length_cons] at hle ⊢
        omega
      · by_cases hiu : i = PInst.useI
        · rw [insertAfterLastUse, if_neg hmem, if_pos hiu]
          show endPos (i :: PInst.endI :: j :: rest2) ≤ (i :: j :: rest2).length - 1
          rw [endPos_cons_ne i _ hie]
          show endPos (PInst.endI :: j :: rest2) + 1 ≤ (i :: j :: rest2).length - 1
          have : endPos (PInst.endI :: j :: rest2) = 0 := rfl
          rw [this]
          simp only [List.length_cons]
          omega
        · rw [insertAfterLastUse, if_neg hmem, if_neg hiu]
          show endPos (PInst.endI :: i :: j :: rest2) ≤ (i :: j :: rest2).length - 1
          have : endPos (PInst.endI :: i :: j :: rest2) = 0 := rfl
          rw [this]
          omega

/-- Claim C5: for every well-formed control-flow path, the ending position
produced by the Liveness policy is at or before the ending position
produced by the Availability policy: Liveness never places a
lifetime-ending instruction later on a path than Availability would. -/
theorem liveness_before_availability (p : CFPath) (hwf : wfPath p = true) :
    endPos (completePath Boundary.Liveness p) ≤
      endPos (completePath Boundary.Availability p) := by
  by_cases h0 : countEnds p = 0
  · have hl : completePath Boundary.Liveness p = insertAfterLastUse p := by
      simp [completePath, h0]
    have ha : completePath Boundary.Availability p = insertBeforeTerm p := by
      simp [completePath, h0]
    rw [hl, ha, endPos_insertBeforeTerm p h0]
    exact endPos_insertAfterLastUse_le p hwf h0
  · simp [completePath, h0]

/-- Witness for C5 at a concrete path with one use before a normal exit. -/
theorem liveness_before_availability_witness :
    endPos (completePath Boundary.Liveness
        [PInst.useI, PInst.otherI, PInst.exitTerm]) ≤
      endPos (completePath Boundary.Availability
        [PInst.useI, PInst.otherI, PInst.exitTerm]) :=
  liveness_before_availability [PInst.useI, PInst.otherI, PInst.exitTerm] (by decide)

theorem mem_insertSet_self (x : Nat) (l : List Nat) : x ∈ insertSet x l := by
  unfold insertSet
  by_cases h : x ∈ l
  · rw [if_pos h]; exact h
  · rw [if_neg h]; simp

theorem mem_insertSet_of_mem (x w : Nat) (l : List Nat) (h : w ∈ l) :
    w ∈ insertSet x l := by
  unfold insertSet
  by_cases hx : x ∈ l
  · rw [if_pos hx]; exact h
  · rw [if_neg hx]; exact List.mem_append_left _ h

theorem recordRegion_preserves_mem (vid w : Nat) (region : CFPath) (s : ULCState)
    (h : w ∈ s.incompleteValues) :
    w ∈ (recordRegion vid region s).incompleteValues := by
  induction region generalizing s with
  | nil => exact h
  | cons i rest ih =>
    show w ∈ (recordRegion vid rest (visitUnreachableInst vid s i)).incompleteValues
    apply ih
    unfold visitUnreachableInst
    by_cases hi : i = PInst.endI
    · rw [if_pos hi]
      exact mem_insertSet_of_mem vid w s.incompleteValues h
    · rw [if_neg hi]; exact h

theorem recordRegion_mem (vid : Nat) (region : CFPath) (s : ULCState)
    (h : 0 < countEnds region) :
    vid ∈ (recordRegion vid region s).incompleteValues := by
  induction region generalizing s with
  | nil => simp [countEnds] at h
  | cons i rest ih =>
    show vid ∈ (recordRegion vid rest (visitUnreachableInst vid s i)).incompleteValues
    by_cases hi : i = PInst.endI
    · apply recordRegion_preserves_mem
      unfold visitUnreachableInst
      rw [if_pos hi]
      exact mem_insertSet_self vid s.incompleteValues
    · apply ih
      rw [countEnds_cons, if_neg hi] at h
      omega

/-- Claim C6: region fixup round-trip. For a value defined outside an
unreachable region and lifetime-ended only inside it (its surviving path
part carries no ending, the region carries at least one), recording the
region's instructions with `visitUnreachableInst` and running
`completeLifetimes` yields a surviving path with exactly one
lifetime-ending instruction once the region is deleted, and
`completeLifetimes` reports insertion; in general `completeLifetimes`
returns true exactly when it inserted a new ending instruction. -/
theorem unreachable_region_fixup_roundtrip (vid : Nat) (outside region : CFPath)
    (s0 : ULCState) (hout : countEnds outside = 0) (hin : 0 < countEnds region) :
    countEnds (completeLifetimes vid true outside (recordRegion vid region s0)).1 = 1 ∧
    (completeLifetimes vid true outside (recordRegion vid region s0)).2.1 = true ∧
    (∀ (w : Nat) (d : Bool) (o : CFPath) (t : ULCState),
      (completeLifetimes w d o t).2.1 = true ↔ (completeLifetimes w d o t).1 ≠ o) := by
  have hmem := recordRegion_mem vid region s0 hin
  have hcond : (true = true ∧ vid ∈ (recordRegion vid region s0).incompleteValues) :=
    ⟨rfl, hmem⟩
  refine ⟨?_, ?_, ?_⟩
  · unfold completeLifetimes
    rw [if_pos hcond]
    show countEnds (outside ++ [PInst.endI]) = 1
    rw [countEnds_append, hout]
    rfl
  · unfold completeLifetimes
    rw [if_pos hcond]
  · intro w d o t
    unfold completeLifetimes
    by_cases hc : (d = true ∧ w ∈ t.incompleteValues)
    · rw [if_pos hc]
      constructor
      · intro _ hceq
        have hl := congrArg List.length hceq
        simp at hl
      · intro _
        rfl
    · rw [if_neg hc]
      constructor
      · intro hfalse
        exact Bool.noConfusion hfalse
      · intro hne
        exact absurd rfl hne

/-- Witness for C6 at a concrete split path: the value is used outside the
region and destroyed only inside it. -/
theorem unreachable_region_fixup_roundtrip_witness :
    countEnds (completeLifetimes 0 true [PInst.useI, PInst.otherI]
      (recordRegion 0 [PInst.otherI, PInst.endI] initialULCState)).1 = 1 :=
  (unreachable_region_fixup_roundtrip 0 [PInst.useI, PInst.otherI]
    [PInst.otherI, PInst.endI] initialULCState (by decide) (by decide)).1

/-- Claim C7: when the caller does not specify a boundary policy, the
boundary is selected from the value itself: a lexical value uses
Availability and a non-lexical value uses Liveness. -/
theorem defaultBoundary_selection (v : ValueModel) (s : EngineState) :
    (v.isLexical = true →
      completeOSSALifetimeDefault v s =
        completeOSSALifetime v Boundary.Availability s) ∧
    (v.isLexical = false →
      completeOSSALifetimeDefault v s =
        completeOSSALifetime v Boundary.Liveness s) := by
  constructor
  · intro h
    simp [completeOSSALifetimeDefault, defaultBoundary, h]
  · intro h
    simp [completeOSSALifetimeDefault, defaultBoundary, h]

/-- Witness for C7 at a concrete lexical value. -/
theorem defaultBoundary_selection_witness :
    completeOSSALifetimeDefault lexicalValue { completedValues := [] } =
      completeOSSALifetime lexicalValue Boundary.Availability { completedValues := [] } :=
  (defaultBoundary_selection lexicalValue { completedValues := [] }).1 rfl

/-- Counterexample to claim C8 as stated: with `updatingLifetimes` already
set (the fixup object has run), a call of `visitUnreachableBlock` is
silently accepted and records the block, rather than being rejected as a
checked fault: the source inserts into `unreachableBlocks` without any
check of `updatingLifetimes`. -/
theorem visitUnreachableBlock_after_use_accepted :
    usedULCState.updatingLifetimes = true ∧
    (visitUnreachableBlock usedULCState 7).unreachableBlocks = [7] ∧
    visitUnreachableBlock usedULCState 7 ≠ usedULCState := by decide

/-- Claim C8 (amended): `completeLifetimes` transitions the fixup object out
of the Collecting state (`updatingLifetimes` is set afterwards), but a
later call of `visitUnreachableBlock` is not rejected as a checked fault:
it is silently accepted and still records the block. -/
theorem unreachableLifetimeCompletion_single_use (vid : Nat) (d : Bool)
    (o : CFPath) (s : ULCState) :
    (completeLifetimes vid d o s).2.2.updatingLifetimes = true ∧
    (∀ (t : ULCState) (blk : Nat), t.updatingLifetimes = true →
      (visitUnreachableBlock t blk).updatingLifetimes = true ∧
      blk ∈ (visitUnreachableBlock t blk).unreachableBlocks) := by
  constructor
  · unfold completeLifetimes
    by_cases hc : (d = true ∧ vid ∈ s.incompleteValues)
    · rw [if_pos hc]
    · rw [if_neg hc]
  · intro t blk ht
    exact ⟨ht, mem_insertSet_self blk t.unreachableBlocks⟩

/-- Witness for C8 (amended) at concrete fixup states. -/
theorem unreachableLifetimeCompletion_single_use_witness :
    (completeLifetimes 0 true [] initialULCState).2.2.updatingLifetimes = true ∧
    3 ∈ (visitUnreachableBlock usedULCState 3).unreachableBlocks :=
  ⟨(unreachableLifetimeCompletion_single_use 0 true [] initialULCState).1,
   ((unreachableLifetimeCompletion_single_use 0 true [] initialULCState).2
      usedULCState 3 rfl).2⟩

end OSSA
